import Mathlib

/-!
Shallow embedding of the nameko-devex storefront backend:

* `products/products/dependencies.py` — `StorageWrapper`, a product store over
  a Redis key-value backend (hash documents keyed by `products:{id}`).
* `gateway/gateway/service.py` — `GatewayService`, the orchestration layer
  (order enrichment, pagination clamping, referential-integrity gates).

Redis hashes are modelled as association lists of field/value string pairs,
the keyspace as an association list of key/document pairs.  Python code that
raises is modelled with `Option`/`Except`; dict lookups that may raise
`KeyError` return `Option`.
-/

namespace Nameko

/-- A Redis hash document: ordered field/value pairs (fields unique in any
hash actually produced by Redis). -/
abbrev Doc := List (String × String)

/-- `HGET`-style field lookup: first binding of the field, if any. -/
def Doc.find (d : Doc) (f : String) : Option String :=
  (List.find? (fun kv => kv.1 == f) d).map Prod.snd

/-- `HSET` on a single hash: overwrite the binding of field `f` if present,
otherwise append it. -/
def Doc.hset : Doc → String → String → Doc
  | [], f, v => [(f, v)]
  | (g, w) :: d, f, v => if g = f then (f, v) :: d else (g, w) :: Doc.hset d f v

/-- `HMSET` on a single hash: set every field of `pairs` in order. -/
def Doc.hmset (d : Doc) : Doc → Doc
  | [] => d
  | (f, v) :: rest => Doc.hmset (d.hset f v) rest

/-- The Redis keyspace: key/document pairs (keys unique in a real instance). -/
structure Redis where
  data : List (String × Doc)
  deriving Repr, DecidableEq

/-- Key lookup in the keyspace. -/
def lookupKey (data : List (String × Doc)) (k : String) : Option Doc :=
  (List.find? (fun kv => kv.1 == k) data).map Prod.snd

/-- Replace the document under key `k`, or append the binding. -/
def updateKey : List (String × Doc) → String → Doc → List (String × Doc)
  | [], k, d => [(k, d)]
  | (k', d') :: rest, k, d =>
    if k' = k then (k, d) :: rest else (k', d') :: updateKey rest k d

/-- `HGETALL key`: the stored hash, or the empty hash when the key is absent
(Redis returns an empty reply for a missing key). -/
def Redis.hgetall (r : Redis) (k : String) : Doc :=
  (lookupKey r.data k).getD []

/-- `HMSET key pairs`: set the given fields on the hash stored at `key`. -/
def Redis.hmset (r : Redis) (k : String) (pairs : Doc) : Redis :=
  ⟨updateKey r.data k (Doc.hmset (r.hgetall k) pairs)⟩

/-- `DEL key`: remove the key, returning the number of keys removed. -/
def Redis.del (r : Redis) (k : String) : Nat × Redis :=
  ((if (lookupKey r.data k).isSome then 1 else 0),
    ⟨r.data.filter (fun kv => !(kv.1 == k))⟩)

/-- `SCAN`: all keys of the keyspace. -/
def Redis.scanKeys (r : Redis) : List String :=
  r.data.map Prod.fst

/-- `StorageWrapper._format_key`: `'products:{}'.format(product_id)`. -/
def formatKey (product_id : String) : String :=
  "products:" ++ product_id

/-- The Product document (`_from_hash`'s result shape). -/
structure Product where
  id : String
  title : String
  passenger_capacity : Int
  maximum_speed : Int
  in_stock : Int
  deriving Repr, DecidableEq

/-- Decimal digit value of a character. -/
def digitVal (c : Char) : Option Nat :=
  if c.isDigit then some (c.toNat - 48) else none

def parseNatAux : List Char → Nat → Option Nat
  | [], acc => some acc
  | c :: cs, acc =>
    match digitVal c with
    | none => none
    | some d => parseNatAux cs (acc * 10 + d)

/-- Python `int(...)` on the decimal string stored in a hash field:
optional leading minus sign, then decimal digits. -/
def parseInt (s : String) : Option Int :=
  match s.data with
  | [] => none
  | '-' :: rest =>
    if rest = [] then none else (parseNatAux rest 0).map (fun n => -(n : Int))
  | ds => (parseNatAux ds 0).map (fun n => (n : Int))

/-- `StorageWrapper._from_hash`: decode a hash document into a Product.
Missing fields or non-integer counters make the Python code raise; modelled
as `none`. -/
def fromHash (document : Doc) : Option Product := do
  let i ← Doc.find document "id"
  let t ← Doc.find document "title"
  let pc ← (Doc.find document "passenger_capacity").bind parseInt
  let ms ← (Doc.find document "maximum_speed").bind parseInt
  let st ← (Doc.find document "in_stock").bind parseInt
  pure ⟨i, t, pc, ms, st⟩

/-- Encode a Product as the hash document its creation would store. -/
def toHash (p : Product) : Doc :=
  [("id", p.id), ("title", p.title),
   ("passenger_capacity", toString p.passenger_capacity),
   ("maximum_speed", toString p.maximum_speed),
   ("in_stock", toString p.in_stock)]

/-- Errors of the product storage layer: `NotFound` with its message, or a
malformed hash (a Python `KeyError`/`ValueError` inside `_from_hash`). -/
inductive StoreError where
  | notFound (message : String)
  | malformedHash
  deriving Repr, DecidableEq

namespace StorageWrapper

/-- `StorageWrapper.get`: `HGETALL` the formatted key; an empty reply means
the product does not exist (`NotFound`), otherwise decode the hash. -/
def get (r : Redis) (product_id : String) : Except StoreError Product :=
  let product := r.hgetall (formatKey product_id)
  if product = [] then
    .error (.notFound ("Product ID " ++ product_id ++ " does not exist"))
  else
    match fromHash product with
    | some p => .ok p
    | none => .error .malformedHash

/-- The key scan of `StorageWrapper.list`: all keys when `product_ids` is
empty, else the set of formatted keys; yield each non-empty hash found. -/
def listDocs (r : Redis) (product_ids : List String) : List Doc :=
  let keys :=
    if product_ids = [] then r.scanKeys
    else (product_ids.map formatKey).dedup
  keys.filterMap (fun key =>
    let document := r.hgetall key
    if document = [] then none else some document)

/-- Decode each yielded hash in order; any malformed hash makes the whole
generator raise, modelled as `none`. -/
def parseDocs : List Doc → Option (List Product)
  | [] => some []
  | d :: rest =>
    match fromHash d with
    | none => none
    | some p => (parseDocs rest).map (fun ps => p :: ps)

/-- `StorageWrapper.list`: scan (empty id list) or per-id lookup, skipping
missing keys silently, then decode each found document. -/
def list (r : Redis) (product_ids : List String) : Option (List Product) :=
  parseDocs (listDocs r product_ids)

/-- `StorageWrapper.create`: `HMSET` the product dict under its formatted
key — an unconditional field-wise write.  A payload without an `id` field
makes the Python dict lookup raise, modelled as `none`. -/
def create (r : Redis) (product : Doc) : Option Redis :=
  (Doc.find product "id").map (fun pid => r.hmset (formatKey pid) product)

/-- `StorageWrapper.delete`: `DEL` the formatted key; zero keys removed
means `NotFound`, otherwise return the id. -/
def delete (r : Redis) (product_id : String) : Redis × Except StoreError String :=
  let (keys_removed, r') := r.del (formatKey product_id)
  if keys_removed = 0 then
    (r', .error (.notFound ("Product ID " ++ product_id ++ " does not exist")))
  else
    (r', .ok product_id)

end StorageWrapper

/-- A store is well-formed when its keys are distinct and every stored
document is a non-empty decodable product hash sitting under the key
formatted from its own product id — the state every store reached through
`create` satisfies. -/
def validEntry (kv : String × Doc) : Bool :=
  !(kv.2 == []) &&
    (match fromHash kv.2 with
     | some p => kv.1 == formatKey p.id
     | none => false)

def validStore (r : Redis) : Bool :=
  decide ((r.data.map Prod.fst).Nodup) && r.data.all validEntry

/-- The product stored under `product_id`, if any: non-empty decodable hash
at the formatted key. -/
def storedProduct (r : Redis) (product_id : String) : Option Product :=
  let d := r.hgetall (formatKey product_id)
  if d = [] then none else fromHash d

/-- One order line as the gateway sees it (`{product_id, price, quantity}`;
backend-assigned line ids play no role in the orchestration logic). -/
structure OrderDetail where
  product_id : String
  price : String
  quantity : Nat
  deriving Repr, DecidableEq

/-- An order owned by the orders backend. -/
structure Order where
  id : Nat
  order_details : List OrderDetail
  deriving Repr, DecidableEq

/-- One enriched order line: the original line plus the attached `product`
and `image` entries set by `_fill_order_details_with_product`. -/
structure EnrichedDetail where
  detail : OrderDetail
  product : Product
  image : String
  deriving Repr, DecidableEq

structure EnrichedOrder where
  id : Nat
  order_details : List EnrichedDetail
  deriving Repr, DecidableEq

/-- The page returned by `OrderBackend.list_orders`. -/
structure PageResult where
  page : Int
  page_size : Int
  total : Nat
  items : List Order
  deriving Repr, DecidableEq

/-- The page after gateway enrichment. -/
structure EnrichedPageResult where
  page : Int
  page_size : Int
  total : Nat
  items : List EnrichedOrder
  deriving Repr, DecidableEq

/-- Client-visible gateway errors. -/
inductive GatewayError where
  | productNotFound (message : String)
  | orderNotFound (message : String)
  | badRequest (message : String)
  deriving Repr, DecidableEq

/-- Modelled from the spec: the orders backend (its relational persistence
is not in `src/`), holding the orders and the next order id to assign. -/
structure OrdersBackend where
  orders : List Order
  next_id : Nat
  deriving Repr, DecidableEq

/-- Modelled from the spec: `OrderBackend.create_order(line_items) -> Order`
appends a new order with the submitted line items under a fresh id. -/
def OrdersBackend.create_order (b : OrdersBackend) (order_details : List OrderDetail) :
    OrdersBackend × Order :=
  (⟨b.orders ++ [⟨b.next_id, order_details⟩], b.next_id + 1⟩, ⟨b.next_id, order_details⟩)

/-- Modelled from the spec: `OrderBackend.get_order_by_product_id(id) ->
Order|null` returns some order whose line items reference the product, if
any exists. -/
def OrdersBackend.get_order_by_product_id (b : OrdersBackend) (product_id : String) :
    Option Order :=
  b.orders.find? (fun order =>
    order.order_details.any (fun d => d.product_id == product_id))

namespace GatewayService

/-- `_extract_product_ids_from_order`: the `product_id` of each line. -/
def extract_product_ids_from_order (order_details : List OrderDetail) : List String :=
  order_details.map (fun order_detail => order_detail.product_id)

/-- `_extract_product_ids_from_orders`: extend an accumulator with each
order's product ids in turn. -/
def extract_product_ids_from_orders (orders : List Order) : List String :=
  orders.foldl
    (fun all_product_ids order =>
      all_product_ids ++ extract_product_ids_from_order order.order_details)
    []

/-- `'{}/{}.jpg'.format(image_root, product_id)`. -/
def format_image (image_root product_id : String) : String :=
  image_root ++ "/" ++ product_id ++ ".jpg"

/-- The dict comprehension over the batch-fetch result:
`product_map = {prod['id']: prod for prod in products}` — later entries win,
so lookup is first match in the reversed list. -/
def buildProductMap (products : List Product) (product_id : String) : Option Product :=
  (List.find? (fun prod => prod.id == product_id) products.reverse)

/-- The loop body of `_fill_order_details_with_product`: attach to each line
`product = product_map[product_id]` (a `KeyError` — `none` — on a missing
id aborts the whole request) and the formatted `image` URL. -/
def fill_details (image_root : String) (product_map : String → Option Product) :
    List OrderDetail → Option (List EnrichedDetail)
  | [] => some []
  | item :: rest =>
    match product_map item.product_id with
    | none => none
    | some prod =>
      (fill_details image_root product_map rest).map
        (fun ds =>
          { detail := item, product := prod,
            image := format_image image_root item.product_id } :: ds)

/-- `_fill_order_details_with_product`. -/
def fill_order_details_with_product (image_root : String) (order : Order)
    (product_map : String → Option Product) : Option EnrichedOrder :=
  (fill_details image_root product_map order.order_details).map
    (fun details => { id := order.id, order_details := details })

/-- `_get_order`, given the order the orders backend returned: extract the
line product ids, batch-fetch them, build the product map and enrich. -/
def get_order (r : Redis) (image_root : String) (order : Order) : Option EnrichedOrder :=
  let order_product_ids := extract_product_ids_from_order order.order_details
  (StorageWrapper.list r order_product_ids).bind (fun products =>
    fill_order_details_with_product image_root order (buildProductMap products))

/-- Enrich each order of a page against one shared product map. -/
def fill_orders (image_root : String) (product_map : String → Option Product) :
    List Order → Option (List EnrichedOrder)
  | [] => some []
  | order :: rest =>
    match fill_order_details_with_product image_root order product_map with
    | none => none
    | some eo => (fill_orders image_root product_map rest).map (fun eos => eo :: eos)

/-- `_list_orders`, given the page the orders backend returned: when the
page has items, batch-fetch the union of all referenced product ids once
and enrich every order with the shared map; an empty page passes through. -/
def list_orders_enrich (r : Redis) (image_root : String) (result : PageResult) :
    Option EnrichedPageResult :=
  if result.items.length > 0 then
    let orders_product_ids := extract_product_ids_from_orders result.items
    (StorageWrapper.list r orders_product_ids).bind (fun products =>
      (fill_orders image_root (buildProductMap products) result.items).map
        (fun items =>
          { page := result.page, page_size := result.page_size,
            total := result.total, items := items }))
  else
    some { page := result.page, page_size := result.page_size,
           total := result.total, items := [] }

/-- The pagination parameters `list_orders` forwards to
`OrderBackend.list_orders`: query args default to `(1, 30)` when absent and
`page_size` is clamped to 100. -/
def list_orders_request_params (page_arg page_size_arg : Option Int) : Int × Int :=
  let page := page_arg.getD 1
  let page_size := page_size_arg.getD 30
  let page_size := if page_size > 100 then 100 else page_size
  (page, page_size)

/-- How the gateway surfaces a storage error from the products service. -/
def surfaceStoreError : StoreError → GatewayError
  | .notFound message => .productNotFound message
  | .malformedHash => .badRequest "malformed product hash"

/-- `delete_product`: refuse with `BadRequest` when some order references
the product, otherwise delegate to `StorageWrapper.delete`. The resulting
store state is returned alongside the outcome. -/
def delete_product (b : OrdersBackend) (r : Redis) (product_id : String) :
    Redis × Except GatewayError String :=
  match b.get_order_by_product_id product_id with
  | some _ => (r, .error (.badRequest "Product with Order can not be deleted"))
  | none =>
    match StorageWrapper.delete r product_id with
    | (r', .error e) => (r', .error (surfaceStoreError e))
    | (r', .ok pid) => (r', .ok pid)

/-- The validated payload of an order-creation request. -/
structure OrderData where
  order_details : List OrderDetail
  deriving Repr, DecidableEq

/-- `_create_order`, on a payload that passed schema validation: batch-fetch
the referenced ids, build the found-id set, scan the submitted lines left to
right and fail on the first line whose id was not found; only if all ids
were found call `OrderBackend.create_order`. The orders-backend state is
returned alongside the outcome. -/
def gateway_create_order (r : Redis) (b : OrdersBackend) (order_data : OrderData) :
    OrdersBackend × Except GatewayError Nat :=
  let order_product_ids := extract_product_ids_from_order order_data.order_details
  match StorageWrapper.list r order_product_ids with
  | none => (b, .error (.badRequest "malformed product hash"))
  | some products =>
    let found_product_ids := products.map (fun prod => prod.id)
    match order_data.order_details.find?
        (fun item => !(found_product_ids.contains item.product_id)) with
    | some item => (b, .error (.productNotFound ("Product Id " ++ item.product_id)))
    | none =>
      let (b', order) := b.create_order order_data.order_details
      (b', .ok order.id)

end GatewayService

/-- The property linking an order line to its enriched form under a product
map: the line is kept, `product` is the map's hit, `image` the derived URL. -/
def EnrichedFrom (image_root : String) (pm : String → Option Product)
    (dt : OrderDetail) (e : EnrichedDetail) : Prop :=
  e.detail = dt ∧ pm dt.product_id = some e.product ∧
    e.image = GatewayService.format_image image_root dt.product_id

/-! ### Concrete fixtures used by witnesses and counterexamples -/

def prodA : Product := ⟨"A", "The Odyssey", 101, 5, 10⟩

def prodB : Product := ⟨"B", "The Enigma", 30, 2, 7⟩

def prodC : Product := ⟨"C", "Rocket", 8, 9, 6⟩

/-- A store holding exactly the products A, B and C. -/
def demoStore : Redis :=
  ⟨[(formatKey "A", toHash prodA), (formatKey "B", toHash prodB),
    (formatKey "C", toHash prodC)]⟩

/-- First create payload of the double-create scenario: full document. -/
def c8_payload1 : Doc := [("id", "a"), ("title", "X"), ("in_stock", "3")]

/-- Second create payload of the double-create scenario: no `in_stock`. -/
def c8_payload2 : Doc := [("id", "a"), ("title", "Y")]

/-- The store after creating `c8_payload1` then `c8_payload2` in an empty
store. -/
def c8_result : Option Redis :=
  (StorageWrapper.create ⟨[]⟩ c8_payload1).bind
    (fun r1 => StorageWrapper.create r1 c8_payload2)

/-- An order-creation payload whose second line references the unknown
product id `"Z"`. -/
def c1_order_data : GatewayService.OrderData :=
  ⟨[⟨"A", "9.99", 2⟩, ⟨"Z", "1.00", 1⟩]⟩

/-- An orders backend with no orders. -/
def c1_backend : OrdersBackend := ⟨[], 7⟩

/-- A fetched order with two lines referencing stored products. -/
def c2_order : Order := ⟨7, [⟨"A", "2.50", 1⟩, ⟨"B", "3.00", 2⟩]⟩

/-- A fetched order with one line referencing a product absent from the
map. -/
def c4_order : Order := ⟨5, [⟨"Z", "1.00", 1⟩]⟩

/-- An orders backend with one order referencing product A. -/
def c7_backend : OrdersBackend := ⟨[⟨1, [⟨"A", "1.00", 1⟩]⟩], 2⟩

/-- A fetched order with no line items. -/
def c10_order : Order := ⟨9, []⟩

/-! ### Basic lemmas about hash documents and the keyspace -/

@[simp]
theorem Doc.find_nil (g : String) : Doc.find [] g = none := rfl

@[simp]
theorem Doc.find_cons (a b : String) (d : Doc) (g : String) :
    Doc.find ((a, b) :: d) g = if a = g then some b else d.find g := by
  by_cases h : a = g
  · simp [Doc.find, List.find?_cons_of_pos, h]
  · have : ¬ (((a, b) : String × String).1 == g) = true := by simpa using h
    simp [Doc.find, List.find?_cons_of_neg _ this, h]

theorem Doc.find_hset (d : Doc) (f v g : String) :
    (Doc.hset d f v).find g = if g = f then some v else d.find g := by
  induction d with
  | nil =>
    simp only [Doc.hset, Doc.find_cons, Doc.find_nil]
    by_cases h : g = f
    · rw [if_pos h.symm, if_pos h]
    · rw [if_neg (fun h' : f = g => h h'.symm), if_neg h]
  | cons kv rest ih =>
    obtain ⟨a, b⟩ := kv
    simp only [Doc.hset]
    by_cases haf : a = f
    · subst haf
      rw [if_pos rfl, Doc.find_cons]
      by_cases h : a = g
      · rw [if_pos h, if_pos h.symm]
      · rw [if_neg h, if_neg (fun h' : g = a => h h'.symm), Doc.find_cons, if_neg h]
    · rw [if_neg haf]
      rw [Doc.find_cons, ih, Doc.find_cons]
      by_cases hag : a = g
      · have hgf : ¬ g = f := fun h => haf (hag.trans h)
        rw [if_pos hag, if_neg hgf, if_pos hag]
      · rw [if_neg hag]
        by_cases hgf : g = f
        · rw [if_pos hgf, if_pos hgf]
        · rw [if_neg hgf, if_neg hgf, if_neg hag]

theorem Doc.find_eq_none_iff (d : Doc) (f : String) :
    d.find f = none ↔ ∀ kv ∈ d, kv.1 ≠ f := by
  simp [Doc.find, List.find?_eq_none]

theorem Doc.find_hmset (d p : Doc) (g : String) (hp : (p.map Prod.fst).Nodup) :
    (Doc.hmset d p).find g =
      (match Doc.find p g with
       | some v => some v
       | none => d.find g) := by
  induction p generalizing d with
  | nil => simp [Doc.hmset]
  | cons kv rest ih =>
    obtain ⟨f, v⟩ := kv
    simp only [List.map_cons, List.nodup_cons] at hp
    obtain ⟨hf, hrest⟩ := hp
    rw [show Doc.hmset d ((f, v) :: rest) = Doc.hmset (d.hset f v) rest from rfl]
    rw [ih _ hrest, Doc.find_cons]
    by_cases hfg : f = g
    · subst hfg
      have hnone : Doc.find rest f = none := by
        rw [Doc.find_eq_none_iff]
        intro kv hkv hk
        exact hf (hk ▸ List.mem_map_of_mem Prod.fst hkv)
      rw [hnone, if_pos rfl]
      simp only [hnone]
      rw [Doc.find_hset, if_pos rfl]
    · rw [if_neg hfg]
      cases hrg : Doc.find rest g with
      | some w => simp only [hrg]
      | none =>
        simp only [hrg]
        rw [Doc.find_hset, if_neg (fun h : g = f => hfg h.symm)]

@[simp]
theorem lookupKey_nil (k : String) : lookupKey [] k = none := rfl

@[simp]
theorem lookupKey_cons (a : String) (b : Doc) (data : List (String × Doc)) (k : String) :
    lookupKey ((a, b) :: data) k = if a = k then some b else lookupKey data k := by
  by_cases h : a = k
  · simp [lookupKey, List.find?_cons_of_pos, h]
  · have : ¬ (((a, b) : String × Doc).1 == k) = true := by simpa using h
    simp [lookupKey, List.find?_cons_of_neg _ this, h]

theorem lookupKey_updateKey (data : List (String × Doc)) (k : String) (d : Doc)
    (k' : String) :
    lookupKey (updateKey data k d) k' = if k' = k then some d else lookupKey data k' := by
  induction data with
  | nil =>
    simp only [updateKey, lookupKey_cons, lookupKey_nil]
    by_cases h : k' = k
    · rw [if_pos h.symm, if_pos h]
    · rw [if_neg (fun h' : k = k' => h h'.symm), if_neg h]
  | cons kv rest ih =>
    obtain ⟨a, b⟩ := kv
    simp only [updateKey]
    by_cases hak : a = k
    · subst hak
      rw [if_pos rfl, lookupKey_cons]
      by_cases h : a = k'
      · rw [if_pos h, if_pos h.symm]
      · rw [if_neg h, if_neg (fun h' : k' = a => h h'.symm), lookupKey_cons, if_neg h]
    · rw [if_neg hak]
      rw [lookupKey_cons, ih, lookupKey_cons]
      by_cases hak' : a = k'
      · have hk'k : ¬ k' = k := fun h => hak (hak'.trans h)
        rw [if_pos hak', if_neg hk'k, if_pos hak']
      · rw [if_neg hak']
        by_cases h : k' = k
        · rw [if_pos h, if_pos h]
        · rw [if_neg h, if_neg h, if_neg hak']

theorem lookupKey_eq_none_iff (data : List (String × Doc)) (k : String) :
    lookupKey data k = none ↔ ∀ kv ∈ data, kv.1 ≠ k := by
  simp [lookupKey, List.find?_eq_none]

theorem lookupKey_mem {data : List (String × Doc)} {k : String} {d : Doc}
    (h : lookupKey data k = some d) : (k, d) ∈ data := by
  induction data with
  | nil => simp [lookupKey] at h
  | cons kv rest ih =>
    obtain ⟨a, b⟩ := kv
    rw [lookupKey_cons] at h
    by_cases hak : a = k
    · subst hak
      rw [if_pos rfl] at h
      cases h
      exact List.mem_cons_self _ _
    · rw [if_neg hak] at h
      exact List.mem_cons_of_mem _ (ih h)

theorem lookupKey_filter_self (data : List (String × Doc)) (k : String) :
    lookupKey (data.filter (fun kv => !(kv.1 == k))) k = none := by
  rw [lookupKey_eq_none_iff]
  intro kv hkv
  have := List.of_mem_filter hkv
  simpa using this

theorem filter_eq_self_of_lookup_none {data : List (String × Doc)} {k : String}
    (h : lookupKey data k = none) : data.filter (fun kv => !(kv.1 == k)) = data := by
  rw [lookupKey_eq_none_iff] at h
  rw [List.filter_eq_self]
  intro kv hkv
  simpa using h kv hkv

theorem hgetall_hmset_self (r : Redis) (k : String) (p : Doc) :
    (r.hmset k p).hgetall k = Doc.hmset (r.hgetall k) p := by
  simp [Redis.hmset, Redis.hgetall, lookupKey_updateKey]

/-! ### Valid stores and the list scan -/

theorem validStore_nodup {r : Redis} (h : validStore r = true) :
    (r.data.map Prod.fst).Nodup := by
  unfold validStore at h
  rw [Bool.and_eq_true] at h
  exact of_decide_eq_true h.1

theorem validStore_entry {r : Redis} (h : validStore r = true)
    {kv : String × Doc} (hmem : kv ∈ r.data) :
    kv.2 ≠ [] ∧ ∃ p, fromHash kv.2 = some p ∧ kv.1 = formatKey p.id := by
  unfold validStore at h
  rw [Bool.and_eq_true] at h
  have h2 := h.2
  rw [List.all_eq_true] at h2
  have hkv := h2 kv hmem
  unfold validEntry at hkv
  rw [Bool.and_eq_true] at hkv
  obtain ⟨h3, h4⟩ := hkv
  refine ⟨by simpa using h3, ?_⟩
  cases hp : fromHash kv.2 with
  | none => rw [hp] at h4; simp at h4
  | some p =>
    rw [hp] at h4
    exact ⟨p, rfl, by simpa using h4⟩

theorem formatKey_inj {a b : String} (h : formatKey a = formatKey b) : a = b := by
  have hd : ("products:" ++ a).data = ("products:" ++ b).data := congrArg String.data h
  rw [String.data_append, String.data_append] at hd
  have hab := List.append_cancel_left hd
  cases a; cases b
  exact congrArg String.mk (by simpa using hab)

theorem mem_listDocs_mem_data {r : Redis} {ids : List String} {d : Doc}
    (h : d ∈ StorageWrapper.listDocs r ids) :
    d ≠ [] ∧ ∃ k, lookupKey r.data k = some d := by
  unfold StorageWrapper.listDocs at h
  rw [List.mem_filterMap] at h
  obtain ⟨key, _, hfn⟩ := h
  by_cases hd : r.hgetall key = []
  · simp [hd] at hfn
  · simp only [if_neg hd, Option.some.injEq] at hfn
    subst hfn
    refine ⟨hd, key, ?_⟩
    unfold Redis.hgetall at hd ⊢
    cases hk : lookupKey r.data key with
    | none => rw [hk] at hd; simp at hd
    | some d' => simp

theorem parseDocs_of_all_isSome {docs : List Doc}
    (h : ∀ d ∈ docs, (fromHash d).isSome) :
    ∃ ps, StorageWrapper.parseDocs docs = some ps ∧
      List.Forall₂ (fun d p => fromHash d = some p) docs ps := by
  induction docs with
  | nil => exact ⟨[], rfl, List.Forall₂.nil⟩
  | cons d rest ih =>
    obtain ⟨p, hp⟩ := Option.isSome_iff_exists.mp (h d (List.mem_cons_self _ _))
    obtain ⟨ps, hps, hfa⟩ := ih (fun x hx => h x (List.mem_cons_of_mem _ hx))
    refine ⟨p :: ps, ?_, List.Forall₂.cons hp hfa⟩
    simp [StorageWrapper.parseDocs, hp, hps]

theorem parseDocs_forall₂ : ∀ {docs : List Doc} {ps : List Product},
    StorageWrapper.parseDocs docs = some ps →
    List.Forall₂ (fun d p => fromHash d = some p) docs ps := by
  intro docs
  induction docs with
  | nil =>
    intro ps h
    simp only [StorageWrapper.parseDocs, Option.some.injEq] at h
    subst h; exact .nil
  | cons d rest ih =>
    intro ps h
    unfold StorageWrapper.parseDocs at h
    cases hfh : fromHash d with
    | none => rw [hfh] at h; simp at h
    | some p =>
      rw [hfh] at h
      cases hrest : StorageWrapper.parseDocs rest with
      | none => rw [hrest] at h; simp at h
      | some qs =>
        rw [hrest] at h
        simp only [Option.map_some'] at h
        cases h
        exact .cons hfh (ih hrest)

theorem list_some_of_valid {r : Redis} (hv : validStore r = true) (ids : List String) :
    ∃ ps, StorageWrapper.list r ids = some ps ∧
      List.Forall₂ (fun d p => fromHash d = some p) (StorageWrapper.listDocs r ids) ps := by
  apply parseDocs_of_all_isSome
  intro d hd
  obtain ⟨_, k, hk⟩ := mem_listDocs_mem_data hd
  have hmem := lookupKey_mem hk
  obtain ⟨_, p, hp, _⟩ := validStore_entry hv hmem
  simp [hp]

theorem mem_listDocs_iff {r : Redis} {ids : List String} (hne : ids ≠ []) (d : Doc) :
    d ∈ StorageWrapper.listDocs r ids ↔
      ∃ pid ∈ ids, r.hgetall (formatKey pid) = d ∧ d ≠ [] := by
  unfold StorageWrapper.listDocs
  rw [if_neg hne, List.mem_filterMap]
  constructor
  · rintro ⟨key, hkey, hfn⟩
    rw [List.mem_dedup, List.mem_map] at hkey
    obtain ⟨pid, hpid, rfl⟩ := hkey
    by_cases hd : r.hgetall (formatKey pid) = []
    · simp [hd] at hfn
    · simp only [if_neg hd, Option.some.injEq] at hfn
      exact ⟨pid, hpid, hfn, hfn ▸ hd⟩
  · rintro ⟨pid, hpid, hget, hdne⟩
    refine ⟨formatKey pid, ?_, ?_⟩
    · rw [List.mem_dedup]; exact List.mem_map_of_mem _ hpid
    · rw [hget, if_neg hdne]

theorem scan_filterMap_eq (data : List (String × Doc))
    (hnodup : (data.map Prod.fst).Nodup)
    (hne : ∀ kv ∈ data, kv.2 ≠ []) :
    (data.map Prod.fst).filterMap
      (fun key => if (lookupKey data key).getD [] = [] then none
                  else some ((lookupKey data key).getD [])) = data.map Prod.snd := by
  induction data with
  | nil => rfl
  | cons kv rest ih =>
    obtain ⟨k, d⟩ := kv
    simp only [List.map_cons, List.nodup_cons] at hnodup
    obtain ⟨hk, hrest⟩ := hnodup
    have hdne : d ≠ [] := hne (k, d) (List.mem_cons_self _ _)
    have hheadlk : lookupKey ((k, d) :: rest) k = some d := by
      rw [lookupKey_cons, if_pos rfl]
    have hcong : List.filterMap
        (fun key => if (lookupKey ((k, d) :: rest) key).getD [] = [] then none
                    else some ((lookupKey ((k, d) :: rest) key).getD []))
        (List.map Prod.fst rest)
        = List.filterMap
        (fun key => if (lookupKey rest key).getD [] = [] then none
                    else some ((lookupKey rest key).getD []))
        (List.map Prod.fst rest) := by
      apply List.filterMap_congr
      intro key hkey
      have hkk : ¬ k = key := fun h => hk (h ▸ hkey)
      rw [lookupKey_cons, if_neg hkk]
    rw [List.map_cons, List.map_cons, List.filterMap_cons, hheadlk]
    simp only [Option.getD_some, if_neg hdne]
    rw [hcong, ih hrest (fun kv h => hne kv (List.mem_cons_of_mem _ h))]

theorem listDocs_nil_of_valid {r : Redis} (hv : validStore r = true) :
    StorageWrapper.listDocs r [] = r.data.map Prod.snd := by
  unfold StorageWrapper.listDocs
  rw [if_pos rfl]
  exact scan_filterMap_eq r.data (validStore_nodup hv)
    (fun kv h => (validStore_entry hv h).1)

theorem lookupKey_of_hgetall_ne {r : Redis} {k : String}
    (h : r.hgetall k ≠ []) : lookupKey r.data k = some (r.hgetall k) := by
  unfold Redis.hgetall at h ⊢
  cases hk : lookupKey r.data k with
  | none => rw [hk] at h; simp at h
  | some d => simp

theorem storedProduct_eq_some {r : Redis} {pid : String} {p : Product}
    (h : storedProduct r pid = some p) :
    r.hgetall (formatKey pid) ≠ [] ∧ fromHash (r.hgetall (formatKey pid)) = some p := by
  simp only [storedProduct] at h
  by_cases hd : r.hgetall (formatKey pid) = []
  · rw [if_pos hd] at h; simp at h
  · rw [if_neg hd] at h; exact ⟨hd, h⟩

theorem storedProduct_id {r : Redis} (hv : validStore r = true) {pid : String}
    {p : Product} (h : storedProduct r pid = some p) : p.id = pid := by
  obtain ⟨hne, hfh⟩ := storedProduct_eq_some h
  have hlk := lookupKey_of_hgetall_ne hne
  have hmem := lookupKey_mem hlk
  obtain ⟨_, q, hq, hkey⟩ := validStore_entry hv hmem
  have hpq : p = q := by rw [hfh] at hq; exact (Option.some.injEq _ _ ▸ hq).symm ▸ rfl
  subst hpq
  exact (formatKey_inj hkey).symm

/-! ### Forall₂ helpers -/

theorem forall₂_mem_left {α β : Type _} {R : α → β → Prop} :
    ∀ {l1 : List α} {l2 : List β}, List.Forall₂ R l1 l2 →
      ∀ {x : α}, x ∈ l1 → ∃ y ∈ l2, R x y := by
  intro l1 l2 h
  induction h with
  | nil => intro x hx; simp at hx
  | cons hr _ ih =>
    intro x hx
    rcases List.mem_cons.mp hx with rfl | hx'
    · exact ⟨_, List.mem_cons_self _ _, hr⟩
    · obtain ⟨y, hy, hxy⟩ := ih hx'
      exact ⟨y, List.mem_cons_of_mem _ hy, hxy⟩

theorem forall₂_mem_right {α β : Type _} {R : α → β → Prop} :
    ∀ {l1 : List α} {l2 : List β}, List.Forall₂ R l1 l2 →
      ∀ {y : β}, y ∈ l2 → ∃ x ∈ l1, R x y := by
  intro l1 l2 h
  induction h with
  | nil => intro y hy; simp at hy
  | cons hr _ ih =>
    intro y hy
    rcases List.mem_cons.mp hy with rfl | hy'
    · exact ⟨_, List.mem_cons_self _ _, hr⟩
    · obtain ⟨x, hx, hxy⟩ := ih hy'
      exact ⟨x, List.mem_cons_of_mem _ hx, hxy⟩

/-! ### The batch-fetched product map -/

/-- Under a valid store, the product map built from any batch fetch whose id
list contains `pid` maps `pid` to exactly the stored product. -/
theorem buildProductMap_stored {r : Redis} {ids : List String} {pid : String}
    {p : Product} {ps : List Product} (hv : validStore r = true)
    (hmem : pid ∈ ids) (hstore : storedProduct r pid = some p)
    (hlist : StorageWrapper.list r ids = some ps) :
    GatewayService.buildProductMap ps pid = some p := by
  have hne : ids ≠ [] := List.ne_nil_of_mem hmem
  obtain ⟨hdne, hfh⟩ := storedProduct_eq_some hstore
  have hpid : p.id = pid := storedProduct_id hv hstore
  have hfa := parseDocs_forall₂ hlist
  have hdmem : r.hgetall (formatKey pid) ∈ StorageWrapper.listDocs r ids :=
    (mem_listDocs_iff hne _).mpr ⟨pid, hmem, rfl, hdne⟩
  obtain ⟨p', hp'mem, hp'⟩ := forall₂_mem_left hfa hdmem
  have hp'p : p' = p := by rw [hfh] at hp'; exact Option.some.inj hp'.symm
  subst hp'p
  have huniq : ∀ q ∈ ps, q.id = pid → q = p' := by
    intro q hq hqid
    obtain ⟨dq, hdqmem, hdq⟩ := forall₂_mem_right hfa hq
    obtain ⟨pidq, hpidq, hdqget, hdqne⟩ := (mem_listDocs_iff hne dq).mp hdqmem
    have hlkq : lookupKey r.data (formatKey pidq) = some dq := by
      rw [← hdqget] at hdqne ⊢
      exact lookupKey_of_hgetall_ne hdqne
    obtain ⟨-, q', hq', hkeyq⟩ := validStore_entry hv (lookupKey_mem hlkq)
    have hq'dq : fromHash dq = some q' := hq'
    have hq'q : q' = q := Option.some.inj (hq'dq.symm.trans hdq)
    have hkey2 : formatKey pidq = formatKey q.id := by
      rw [← hq'q]; exact hkeyq
    have hpidq_pid : pidq = pid := (formatKey_inj hkey2).trans hqid
    rw [hpidq_pid] at hdqget
    rw [hdqget] at hfh
    exact Option.some.inj (hdq.symm.trans hfh)
  have hexist : ∃ x ∈ ps.reverse, (fun prod => prod.id == pid) x = true := by
    refine ⟨p', List.mem_reverse.mpr hp'mem, ?_⟩
    simp [hpid]
  have hsome : (ps.reverse.find? (fun prod => prod.id == pid)).isSome := by
    rw [List.find?_isSome]
    exact hexist
  obtain ⟨q, hqfind⟩ := Option.isSome_iff_exists.mp hsome
  have hqmem : q ∈ ps := List.mem_reverse.mp (List.mem_of_find?_eq_some hqfind)
  have hqpid : q.id = pid := by
    have := List.find?_some hqfind
    simpa using this
  unfold GatewayService.buildProductMap
  rw [hqfind, huniq q hqmem hqpid]

/-- Under a valid store, the product map of any batch fetch sends an id with
no stored product to `none`. -/
theorem buildProductMap_missing {r : Redis} {ids : List String} {pid : String}
    {ps : List Product} (hv : validStore r = true)
    (hstore : storedProduct r pid = none)
    (hlist : StorageWrapper.list r ids = some ps) :
    GatewayService.buildProductMap ps pid = none := by
  have hfa := parseDocs_forall₂ hlist
  unfold GatewayService.buildProductMap
  rw [List.find?_eq_none]
  intro q hqmem
  have hq : q ∈ ps := List.mem_reverse.mp hqmem
  obtain ⟨dq, hdqmem, hdq⟩ := forall₂_mem_right hfa hq
  obtain ⟨hdqne, kq, hlkq⟩ := mem_listDocs_mem_data hdqmem
  obtain ⟨-, q', hq', hkeyq⟩ := validStore_entry hv (lookupKey_mem hlkq)
  have hq'dq : fromHash dq = some q' := hq'
  have hq'q : q' = q := Option.some.inj (hq'dq.symm.trans hdq)
  have hkq : kq = formatKey q.id := by rw [← hq'q]; exact hkeyq
  simp only [beq_iff_eq]
  intro hqid
  have hget : r.hgetall kq = dq := by
    unfold Redis.hgetall
    rw [hlkq]; rfl
  rw [hkq, hqid] at hget
  simp only [storedProduct] at hstore
  rw [hget, if_neg hdqne] at hstore
  rw [hstore] at hdq
  exact Option.noConfusion hdq

/-! ### Enrichment loop lemmas -/

theorem fill_details_all_hit {image_root : String} {pm : String → Option Product} :
    ∀ {details : List OrderDetail},
    (∀ dt ∈ details, (pm dt.product_id).isSome) →
    ∃ es, GatewayService.fill_details image_root pm details = some es ∧
      List.Forall₂ (EnrichedFrom image_root pm) details es := by
  intro details
  induction details with
  | nil => exact fun _ => ⟨[], rfl, .nil⟩
  | cons dt rest ih =>
    intro h
    obtain ⟨prod, hprod⟩ := Option.isSome_iff_exists.mp (h dt (List.mem_cons_self _ _))
    obtain ⟨es, hes, hfa⟩ := ih (fun x hx => h x (List.mem_cons_of_mem _ hx))
    refine ⟨⟨dt, prod, GatewayService.format_image image_root dt.product_id⟩ :: es, ?_, ?_⟩
    · simp [GatewayService.fill_details, hprod, hes]
    · exact .cons ⟨rfl, hprod, rfl⟩ hfa

theorem fill_details_miss {image_root : String} {pm : String → Option Product} :
    ∀ {details : List OrderDetail},
    (∃ dt ∈ details, pm dt.product_id = none) →
    GatewayService.fill_details image_root pm details = none := by
  intro details
  induction details with
  | nil => rintro ⟨dt, h, -⟩; simp at h
  | cons d rest ih =>
    rintro ⟨dt, hmem, hnone⟩
    rcases List.mem_cons.mp hmem with rfl | hmem'
    · simp [GatewayService.fill_details, hnone]
    · cases hpd : pm d.product_id with
      | none => simp [GatewayService.fill_details, hpd]
      | some prod => simp [GatewayService.fill_details, hpd, ih ⟨dt, hmem', hnone⟩]

theorem foldl_append_extract (orders : List Order) :
    ∀ init, orders.foldl
        (fun acc o => acc ++ GatewayService.extract_product_ids_from_order o.order_details)
        init
      = init ++
        (orders.map
          (fun o => GatewayService.extract_product_ids_from_order o.order_details)).flatten := by
  induction orders with
  | nil => intro init; simp
  | cons o rest ih => intro init; simp [ih, List.append_assoc]

theorem mem_extract_from_orders {orders : List Order} {o : Order} {dt : OrderDetail}
    (ho : o ∈ orders) (hdt : dt ∈ o.order_details) :
    dt.product_id ∈ GatewayService.extract_product_ids_from_orders orders := by
  unfold GatewayService.extract_product_ids_from_orders
  rw [foldl_append_extract, List.nil_append, List.mem_flatten]
  refine ⟨GatewayService.extract_product_ids_from_order o.order_details,
    List.mem_map_of_mem _ ho, ?_⟩
  exact List.mem_map_of_mem _ hdt

theorem mem_extract_from_order {details : List OrderDetail} {dt : OrderDetail}
    (hdt : dt ∈ details) :
    dt.product_id ∈ GatewayService.extract_product_ids_from_order details :=
  List.mem_map_of_mem _ hdt

/-- `List.find?` returns the element at the first index satisfying the
predicate. -/
theorem find?_first_index {α : Type _} {p : α → Bool} :
    ∀ {l : List α}, (∃ x ∈ l, p x = true) →
      ∃ n, ∃ hn : n < l.length, p (l.get ⟨n, hn⟩) = true ∧
        (∀ m (hm : m < n), p (l.get ⟨m, Nat.lt_trans hm hn⟩) = false) ∧
        l.find? p = some (l.get ⟨n, hn⟩) := by
  intro l
  induction l with
  | nil => rintro ⟨x, hx, -⟩; simp at hx
  | cons a rest ih =>
    rintro ⟨x, hx, hpx⟩
    by_cases hpa : p a = true
    · exact ⟨0, Nat.succ_pos _, hpa, fun m hm => absurd hm (Nat.not_lt_zero m),
        by simp [List.find?_cons_of_pos _ hpa]⟩
    · have hpa' : p a = false := by simpa using hpa
      have hx' : x ∈ rest := by
        rcases List.mem_cons.mp hx with rfl | h
        · rw [hpx] at hpa'; cases hpa'
        · exact h
      obtain ⟨n, hn, h1, h2, h3⟩ := ih ⟨x, hx', hpx⟩
      refine ⟨n + 1, Nat.succ_lt_succ hn, ?_, ?_, ?_⟩
      · simpa using h1
      · intro m hm
        cases m with
        | zero => simpa using hpa'
        | succ m' => simpa using h2 m' (Nat.lt_of_succ_lt_succ hm)
      · rw [List.find?_cons_of_neg _ (by simp [hpa'])]
        simpa using h3

/-- Strengthen a `Forall₂` relation pointwise, using membership. -/
theorem forall₂_imp_of_mem {α β : Type _} {R S : α → β → Prop} :
    ∀ {l1 : List α} {l2 : List β}, List.Forall₂ R l1 l2 →
      (∀ x ∈ l1, ∀ y, R x y → S x y) → List.Forall₂ S l1 l2 := by
  intro l1 l2 h
  induction h with
  | nil => intro _; exact .nil
  | cons hr _ ih =>
    intro himp
    exact .cons (himp _ (List.mem_cons_self _ _) _ hr)
      (ih (fun x hx y hxy => himp x (List.mem_cons_of_mem _ hx) y hxy))

theorem fill_orders_all_hit {image_root : String} {pm : String → Option Product} :
    ∀ {orders : List Order},
    (∀ o ∈ orders, ∀ dt ∈ o.order_details, (pm dt.product_id).isSome) →
    ∃ eos, GatewayService.fill_orders image_root pm orders = some eos ∧
      List.Forall₂
        (fun (o : Order) (eo : EnrichedOrder) => eo.id = o.id ∧
          List.Forall₂ (EnrichedFrom image_root pm) o.order_details eo.order_details)
        orders eos := by
  intro orders
  induction orders with
  | nil => exact fun _ => ⟨[], rfl, .nil⟩
  | cons o rest ih =>
    intro h
    obtain ⟨es, hes, hfa⟩ := fill_details_all_hit (h o (List.mem_cons_self _ _))
    obtain ⟨eos, heos, hfas⟩ := ih (fun x hx => h x (List.mem_cons_of_mem _ hx))
    refine ⟨⟨o.id, es⟩ :: eos, ?_, .cons ⟨rfl, hfa⟩ hfas⟩
    unfold GatewayService.fill_orders GatewayService.fill_order_details_with_product
    rw [hes]
    simp [heos]

/-- Single-order enrichment under a valid store: every line whose product is
stored gets the stored product attached plus the derived image URL. -/
theorem get_order_enriched {r : Redis} (hv : validStore r = true)
    {image_root : String} {order : Order}
    (hall : ∀ dt ∈ order.order_details, (storedProduct r dt.product_id).isSome) :
    ∃ eo, GatewayService.get_order r image_root order = some eo ∧ eo.id = order.id ∧
      List.Forall₂
        (fun dt (e : EnrichedDetail) => e.detail = dt ∧
          storedProduct r dt.product_id = some e.product ∧
          e.image = GatewayService.format_image image_root dt.product_id)
        order.order_details eo.order_details := by
  obtain ⟨ps, hps, -⟩ := list_some_of_valid hv
    (GatewayService.extract_product_ids_from_order order.order_details)
  have hmap : ∀ dt ∈ order.order_details,
      GatewayService.buildProductMap ps dt.product_id = storedProduct r dt.product_id := by
    intro dt hdt
    obtain ⟨p, hp⟩ := Option.isSome_iff_exists.mp (hall dt hdt)
    rw [hp]
    exact buildProductMap_stored hv (mem_extract_from_order hdt) hp hps
  have hhit : ∀ dt ∈ order.order_details,
      ((GatewayService.buildProductMap ps) dt.product_id).isSome := by
    intro dt hdt; rw [hmap dt hdt]; exact hall dt hdt
  obtain ⟨es, hes, hfa⟩ :=
    @fill_details_all_hit image_root (GatewayService.buildProductMap ps)
      order.order_details hhit
  refine ⟨⟨order.id, es⟩, ?_, rfl, ?_⟩
  · simp only [GatewayService.get_order, GatewayService.fill_order_details_with_product]
    rw [hps]
    simp [hes]
  · refine forall₂_imp_of_mem hfa ?_
    rintro dt hdt e ⟨h1, h2, h3⟩
    exact ⟨h1, (hmap dt hdt).symm.trans h2, h3⟩

/-- Page enrichment under a valid store: with every referenced product
stored, every order of the page gets every line enriched, and the
pagination fields pass through. -/
theorem list_orders_enriched {r : Redis} (hv : validStore r = true)
    {image_root : String} {result : PageResult}
    (hall : ∀ o ∈ result.items, ∀ dt ∈ o.order_details,
      (storedProduct r dt.product_id).isSome) :
    ∃ ep, GatewayService.list_orders_enrich r image_root result = some ep ∧
      ep.page = result.page ∧ ep.page_size = result.page_size ∧
      ep.total = result.total ∧
      List.Forall₂
        (fun (o : Order) (eo : EnrichedOrder) => eo.id = o.id ∧
          List.Forall₂
            (fun dt (e : EnrichedDetail) => e.detail = dt ∧
              storedProduct r dt.product_id = some e.product ∧
              e.image = GatewayService.format_image image_root dt.product_id)
            o.order_details eo.order_details)
        result.items ep.items := by
  by_cases hempty : result.items.length > 0
  · obtain ⟨ps, hps, -⟩ := list_some_of_valid hv
      (GatewayService.extract_product_ids_from_orders result.items)
    have hmap : ∀ o ∈ result.items, ∀ dt ∈ o.order_details,
        GatewayService.buildProductMap ps dt.product_id = storedProduct r dt.product_id := by
      intro o ho dt hdt
      obtain ⟨p, hp⟩ := Option.isSome_iff_exists.mp (hall o ho dt hdt)
      rw [hp]
      exact buildProductMap_stored hv (mem_extract_from_orders ho hdt) hp hps
    have hhit : ∀ o ∈ result.items, ∀ dt ∈ o.order_details,
        ((GatewayService.buildProductMap ps) dt.product_id).isSome := by
      intro o ho dt hdt; rw [hmap o ho dt hdt]; exact hall o ho dt hdt
    obtain ⟨eos, heos, hfa⟩ :=
      @fill_orders_all_hit image_root (GatewayService.buildProductMap ps)
        result.items hhit
    refine ⟨⟨result.page, result.page_size, result.total, eos⟩, ?_, rfl, rfl, rfl, ?_⟩
    · simp only [GatewayService.list_orders_enrich]
      rw [if_pos hempty, hps]
      simp [heos]
    · refine forall₂_imp_of_mem hfa ?_
      rintro o ho eo ⟨hid, hlines⟩
      refine ⟨hid, forall₂_imp_of_mem hlines ?_⟩
      rintro dt hdt e ⟨h1, h2, h3⟩
      exact ⟨h1, (hmap o ho dt hdt).symm.trans h2, h3⟩
  · have hnil : result.items = [] := by
      cases hi : result.items with
      | nil => rfl
      | cons a l => rw [hi] at hempty; simp at hempty
    refine ⟨⟨result.page, result.page_size, result.total, []⟩, ?_, rfl, rfl, rfl, ?_⟩
    · simp only [GatewayService.list_orders_enrich]
      rw [if_neg hempty]
    · rw [hnil]; exact .nil

/-! ### Claim theorems -/

/-- C5: for every list-orders request, omitted `page`/`page_size` reach the
orders backend as `(1, 30)`; a requested `page_size` above 100 reaches it
as exactly 100; any other requested pair passes through unchanged. -/
theorem spec_c5_pagination_defaults_and_clamp :
    GatewayService.list_orders_request_params none none = (1, 30) ∧
    (∀ page page_size : Int, 100 < page_size →
      GatewayService.list_orders_request_params (some page) (some page_size) = (page, 100)) ∧
    (∀ page page_size : Int, page_size ≤ 100 →
      GatewayService.list_orders_request_params (some page) (some page_size) =
        (page, page_size)) := by
  refine ⟨rfl, ?_, ?_⟩
  · intro page page_size h
    simp [GatewayService.list_orders_request_params, h]
  · intro page page_size h
    simp [GatewayService.list_orders_request_params, not_lt.mpr h]

theorem spec_c5_pagination_witness :
    ((100 : Int) < 150 ∧
      GatewayService.list_orders_request_params (some 2) (some 150) = (2, 100)) ∧
    ((40 : Int) ≤ 100 ∧
      GatewayService.list_orders_request_params (some 3) (some 40) = (3, 40)) :=
  ⟨⟨by norm_num, spec_c5_pagination_defaults_and_clamp.2.1 2 150 (by norm_num)⟩,
   ⟨by norm_num, spec_c5_pagination_defaults_and_clamp.2.2 3 40 (by norm_num)⟩⟩

/-- C6 counterexample: the caller can supply `page = 0` and `page_size = 0`;
the pair forwarded to the orders backend is then `(0, 0)`, violating the
claimed bounds `page ≥ 1` and `page_size ∈ [1, 100]`. -/
theorem spec_c6_counterexample :
    ¬ (1 ≤ (GatewayService.list_orders_request_params (some 0) (some 0)).1 ∧
       1 ≤ (GatewayService.list_orders_request_params (some 0) (some 0)).2) := by
  decide

/-- C6 amended: the forwarded `page_size` never exceeds 100 and the
defaults `(1, 30)` satisfy the claimed bounds, but no lower bound is
enforced — nonpositive caller-supplied values pass through unchanged, as
`(0, 0)` shows. -/
theorem spec_c6_forwarded_bounds :
    (∀ page_arg page_size_arg : Option Int,
      (GatewayService.list_orders_request_params page_arg page_size_arg).2 ≤ 100) ∧
    GatewayService.list_orders_request_params none none = (1, 30) ∧
    GatewayService.list_orders_request_params (some 0) (some 0) = (0, 0) := by
  refine ⟨?_, rfl, rfl⟩
  intro page_arg page_size_arg
  simp only [GatewayService.list_orders_request_params]
  by_cases h : (page_size_arg.getD 30) > 100
  · simp [h]
  · simp only [if_neg h]
    omega

/-- C3: with a non-empty id collection, `list` yields exactly the non-empty
documents stored under the requested ids (missing ids silently skipped);
with an empty id collection it scans the keyspace and yields every stored
product; over a store holding exactly A, B, C, `list []` yields exactly
those three and `list ["A", "Z"]` yields exactly A. -/
theorem spec_c3_list_semantics :
    (∀ (r : Redis) (ids : List String) (d : Doc), ids ≠ [] →
      (d ∈ StorageWrapper.listDocs r ids ↔
        ∃ pid ∈ ids, r.hgetall (formatKey pid) = d ∧ d ≠ [])) ∧
    (∀ r : Redis, validStore r = true →
      StorageWrapper.listDocs r [] = r.data.map Prod.snd) ∧
    StorageWrapper.list demoStore [] = some [prodA, prodB, prodC] ∧
    StorageWrapper.list demoStore ["A", "Z"] = some [prodA] := by
  refine ⟨?_, ?_, ?_, ?_⟩
  · intro r ids d hne
    exact mem_listDocs_iff hne d
  · intro r hv
    exact listDocs_nil_of_valid hv
  · rfl
  · rfl

theorem spec_c3_list_semantics_witness :
    ((["A", "Z"] : List String) ≠ [] ∧
      (toHash prodA ∈ StorageWrapper.listDocs demoStore ["A", "Z"] ↔
        ∃ pid ∈ ["A", "Z"],
          demoStore.hgetall (formatKey pid) = toHash prodA ∧ toHash prodA ≠ [])) ∧
    (validStore demoStore = true ∧
      StorageWrapper.listDocs demoStore [] = demoStore.data.map Prod.snd) :=
  ⟨⟨by decide, spec_c3_list_semantics.1 demoStore ["A", "Z"] (toHash prodA) (by decide)⟩,
   ⟨by decide, spec_c3_list_semantics.2.1 demoStore (by decide)⟩⟩

/-- C8 counterexample: creating `c8_payload1` then `c8_payload2` (same id
`"a"`, different payloads) never fails, but the store does not hold exactly
the second payload afterwards — the `in_stock` field of the first payload
survives, although the second payload has no `in_stock` field at all. -/
theorem spec_c8_counterexample :
    ∃ r2 : Redis, c8_result = some r2 ∧
      Doc.find (r2.hgetall (formatKey "a")) "in_stock" = some "3" ∧
      Doc.find c8_payload2 "in_stock" = none := by
  refine ⟨⟨[(formatKey "a", [("id", "a"), ("title", "Y"), ("in_stock", "3")])]⟩,
    ?_, ?_, ?_⟩ <;> rfl

/-- C8 amended: `create` is an unconditional upsert that never fails, but
`HMSET` writes at field granularity: after two creates under the same id,
every field reads back as the second payload's value when present there and
as the first payload's otherwise; the store holds exactly the second
payload only when the second payload covers every field of the first (in
particular for full Product payloads). -/
theorem spec_c8_upsert_last_write :
    ∀ (r : Redis) (p1 p2 : Doc) (pid : String),
      Doc.find p1 "id" = some pid → Doc.find p2 "id" = some pid →
      (p1.map Prod.fst).Nodup → (p2.map Prod.fst).Nodup →
      r.hgetall (formatKey pid) = [] →
      ∃ r1 r2, StorageWrapper.create r p1 = some r1 ∧
        StorageWrapper.create r1 p2 = some r2 ∧
        (∀ f, Doc.find (r2.hgetall (formatKey pid)) f =
          (match Doc.find p2 f with
           | some v => some v
           | none => Doc.find p1 f)) ∧
        ((∀ f, (Doc.find p1 f).isSome → (Doc.find p2 f).isSome) →
          ∀ f, Doc.find (r2.hgetall (formatKey pid)) f = Doc.find p2 f) := by
  intro r p1 p2 pid hid1 hid2 hn1 hn2 hfresh
  refine ⟨r.hmset (formatKey pid) p1,
    (r.hmset (formatKey pid) p1).hmset (formatKey pid) p2, ?_, ?_, ?_, ?_⟩
  · unfold StorageWrapper.create
    rw [hid1]; rfl
  · unfold StorageWrapper.create
    rw [hid2]; rfl
  · intro f
    rw [hgetall_hmset_self, hgetall_hmset_self, hfresh]
    rw [Doc.find_hmset _ _ _ hn2, Doc.find_hmset _ _ _ hn1]
    cases h2 : Doc.find p2 f with
    | some v => rfl
    | none =>
      cases h1 : Doc.find p1 f with
      | some w => rfl
      | none => rfl
  · intro hcover f
    rw [hgetall_hmset_self, hgetall_hmset_self, hfresh]
    rw [Doc.find_hmset _ _ _ hn2, Doc.find_hmset _ _ _ hn1]
    cases h2 : Doc.find p2 f with
    | some v => rfl
    | none =>
      cases h1 : Doc.find p1 f with
      | some w =>
        have := hcover f (by rw [h1]; rfl)
        rw [h2] at this
        cases this
      | none => rfl

theorem spec_c8_upsert_last_write_witness :
    (Doc.find c8_payload1 "id" = some "a" ∧ Doc.find c8_payload2 "id" = some "a" ∧
      (c8_payload1.map Prod.fst).Nodup ∧ (c8_payload2.map Prod.fst).Nodup ∧
      Redis.hgetall ⟨[]⟩ (formatKey "a") = []) ∧
    (∃ r1 r2, StorageWrapper.create ⟨[]⟩ c8_payload1 = some r1 ∧
      StorageWrapper.create r1 c8_payload2 = some r2 ∧
      (∀ f, Doc.find (r2.hgetall (formatKey "a")) f =
        (match Doc.find c8_payload2 f with
         | some v => some v
         | none => Doc.find c8_payload1 f)) ∧
      ((∀ f, (Doc.find c8_payload1 f).isSome → (Doc.find c8_payload2 f).isSome) →
        ∀ f, Doc.find (r2.hgetall (formatKey "a")) f = Doc.find c8_payload2 f)) :=
  ⟨⟨rfl, rfl, by decide, by decide, rfl⟩,
    spec_c8_upsert_last_write ⟨[]⟩ c8_payload1 c8_payload2 "a" rfl rfl
      (by decide) (by decide) rfl⟩

/-- C9: `create` writes at field granularity — every field present in the
payload reads back with the payload's value, and every field absent from
the payload keeps the value the stored document had before. -/
theorem spec_c9_create_field_granularity :
    ∀ (r : Redis) (p : Doc) (pid : String),
      Doc.find p "id" = some pid → (p.map Prod.fst).Nodup →
      ∃ r', StorageWrapper.create r p = some r' ∧
        (∀ f v, Doc.find p f = some v →
          Doc.find (r'.hgetall (formatKey pid)) f = some v) ∧
        (∀ f, Doc.find p f = none →
          Doc.find (r'.hgetall (formatKey pid)) f =
            Doc.find (r.hgetall (formatKey pid)) f) := by
  intro r p pid hid hn
  refine ⟨r.hmset (formatKey pid) p, ?_, ?_, ?_⟩
  · unfold StorageWrapper.create
    rw [hid]; rfl
  · intro f v hf
    rw [hgetall_hmset_self, Doc.find_hmset _ _ _ hn, hf]
  · intro f hf
    rw [hgetall_hmset_self, Doc.find_hmset _ _ _ hn, hf]

theorem spec_c9_create_field_granularity_witness :
    (Doc.find [("id", "A"), ("in_stock", "99")] "id" = some "A" ∧
      (([("id", "A"), ("in_stock", "99")] : Doc).map Prod.fst).Nodup) ∧
    (∃ r', StorageWrapper.create demoStore [("id", "A"), ("in_stock", "99")] = some r' ∧
      (∀ f v, Doc.find [("id", "A"), ("in_stock", "99")] f = some v →
        Doc.find (r'.hgetall (formatKey "A")) f = some v) ∧
      (∀ f, Doc.find [("id", "A"), ("in_stock", "99")] f = none →
        Doc.find (r'.hgetall (formatKey "A")) f =
          Doc.find (demoStore.hgetall (formatKey "A")) f)) :=
  ⟨⟨rfl, by decide⟩,
    spec_c9_create_field_granularity demoStore [("id", "A"), ("in_stock", "99")] "A"
      rfl (by decide)⟩

/-- C1: on a validated order-creation payload, if a submitted line
references a product id absent from the batch-fetch result, the creation
fails with a product-not-found error naming the first offending id in a
left-to-right scan of the submitted lines, and the orders backend is left
untouched — `create_order` is never reached. -/
theorem spec_c1_referential_gate :
    ∀ (r : Redis) (b : OrdersBackend) (order_data : GatewayService.OrderData)
      (products : List Product),
      StorageWrapper.list r
        (GatewayService.extract_product_ids_from_order order_data.order_details)
        = some products →
      (∃ dt ∈ order_data.order_details,
        dt.product_id ∉ products.map (fun prod => prod.id)) →
      ∃ n, ∃ hn : n < order_data.order_details.length,
        (order_data.order_details.get ⟨n, hn⟩).product_id
          ∉ products.map (fun prod => prod.id) ∧
        (∀ m (hm : m < n),
          (order_data.order_details.get ⟨m, Nat.lt_trans hm hn⟩).product_id
            ∈ products.map (fun prod => prod.id)) ∧
        GatewayService.gateway_create_order r b order_data =
          (b, .error (.productNotFound
            ("Product Id " ++ (order_data.order_details.get ⟨n, hn⟩).product_id))) := by
  intro r b order_data products hlist hmiss
  have hex : ∃ x ∈ order_data.order_details, (fun item : OrderDetail =>
      !((products.map (fun prod => prod.id)).contains item.product_id)) x = true := by
    obtain ⟨dt, hdt, hnotin⟩ := hmiss
    exact ⟨dt, hdt, by simp [hnotin]⟩
  obtain ⟨n, hn, h1, h2, h3⟩ := find?_first_index hex
  refine ⟨n, hn, ?_, ?_, ?_⟩
  · simpa using h1
  · intro m hm
    simpa using h2 m hm
  · simp only [GatewayService.gateway_create_order, hlist, h3]

theorem spec_c1_referential_gate_witness :
    (StorageWrapper.list demoStore
      (GatewayService.extract_product_ids_from_order c1_order_data.order_details)
      = some [prodA] ∧
     ∃ dt ∈ c1_order_data.order_details,
       dt.product_id ∉ [prodA].map (fun prod => prod.id)) ∧
    (∃ n, ∃ hn : n < c1_order_data.order_details.length,
      (c1_order_data.order_details.get ⟨n, hn⟩).product_id
        ∉ [prodA].map (fun prod => prod.id) ∧
      (∀ m (hm : m < n),
        (c1_order_data.order_details.get ⟨m, Nat.lt_trans hm hn⟩).product_id
          ∈ [prodA].map (fun prod => prod.id)) ∧
      GatewayService.gateway_create_order demoStore c1_backend c1_order_data =
        (c1_backend, .error (.productNotFound
          ("Product Id " ++
            (c1_order_data.order_details.get ⟨n, hn⟩).product_id)))) :=
  ⟨⟨rfl, ⟨"Z", "1.00", 1⟩, by decide, by decide⟩,
    spec_c1_referential_gate demoStore c1_backend c1_order_data [prodA] rfl
      ⟨⟨"Z", "1.00", 1⟩, by decide, by decide⟩⟩

/-- C4: during enrichment, a line whose product id is absent from the
id-to-product map makes the whole request fail (the lookup raises),
rather than returning the line without its product. -/
theorem spec_c4_enrichment_fails_loudly :
    ∀ (image_root : String) (order : Order) (pm : String → Option Product),
      (∃ dt ∈ order.order_details, pm dt.product_id = none) →
      GatewayService.fill_order_details_with_product image_root order pm = none := by
  intro image_root order pm h
  unfold GatewayService.fill_order_details_with_product
  rw [fill_details_miss h]
  rfl

theorem spec_c4_enrichment_fails_loudly_witness :
    (∃ dt ∈ c4_order.order_details,
      GatewayService.buildProductMap [prodA] dt.product_id = none) ∧
    GatewayService.fill_order_details_with_product "http://img" c4_order
      (GatewayService.buildProductMap [prodA]) = none :=
  ⟨⟨⟨"Z", "1.00", 1⟩, by decide, rfl⟩,
    spec_c4_enrichment_fails_loudly "http://img" c4_order
      (GatewayService.buildProductMap [prodA]) ⟨⟨"Z", "1.00", 1⟩, by decide, rfl⟩⟩

/-- C7: delete-product first consults the orders backend; a product
referenced by some order is refused with `BadRequest`, the store untouched;
an unreferenced product is delegated to the store's delete, which
propagates `NotFound` (store untouched) when the key is absent and on
success removes the product, which is afterwards absent from `get`. -/
theorem spec_c7_delete_gate :
    ∀ (b : OrdersBackend) (r : Redis) (product_id : String),
      (∀ o, b.get_order_by_product_id product_id = some o →
        GatewayService.delete_product b r product_id =
          (r, .error (.badRequest "Product with Order can not be deleted"))) ∧
      (b.get_order_by_product_id product_id = none →
        lookupKey r.data (formatKey product_id) = none →
        GatewayService.delete_product b r product_id =
          (r, .error (.productNotFound
            ("Product ID " ++ product_id ++ " does not exist")))) ∧
      (b.get_order_by_product_id product_id = none →
        ∀ d, lookupKey r.data (formatKey product_id) = some d →
        ∃ r', GatewayService.delete_product b r product_id = (r', .ok product_id) ∧
          StorageWrapper.get r' product_id =
            .error (.notFound ("Product ID " ++ product_id ++ " does not exist"))) := by
  intro b r product_id
  refine ⟨?_, ?_, ?_⟩
  · intro o ho
    unfold GatewayService.delete_product
    rw [ho]
  · intro hno hlk
    unfold GatewayService.delete_product
    rw [hno]
    unfold StorageWrapper.delete Redis.del
    rw [hlk, filter_eq_self_of_lookup_none hlk]
    simp [GatewayService.surfaceStoreError]
  · intro hno d hlk
    refine ⟨⟨r.data.filter (fun kv => !(kv.1 == formatKey product_id))⟩, ?_, ?_⟩
    · unfold GatewayService.delete_product
      rw [hno]
      unfold StorageWrapper.delete Redis.del
      rw [hlk]
      simp
    · have hget : Redis.hgetall
          ⟨r.data.filter (fun kv => !(kv.1 == formatKey product_id))⟩
          (formatKey product_id) = [] := by
        unfold Redis.hgetall
        rw [lookupKey_filter_self]
        rfl
      simp only [StorageWrapper.get]
      rw [hget, if_pos rfl]

theorem spec_c7_delete_gate_witness :
    (OrdersBackend.get_order_by_product_id c7_backend "A" =
        some ⟨1, [⟨"A", "1.00", 1⟩]⟩ ∧
      GatewayService.delete_product c7_backend demoStore "A" =
        (demoStore, .error (.badRequest "Product with Order can not be deleted"))) ∧
    (OrdersBackend.get_order_by_product_id ⟨[], 1⟩ "Z" = none ∧
      lookupKey demoStore.data (formatKey "Z") = none ∧
      GatewayService.delete_product ⟨[], 1⟩ demoStore "Z" =
        (demoStore, .error (.productNotFound "Product ID Z does not exist"))) ∧
    (lookupKey demoStore.data (formatKey "A") = some (toHash prodA) ∧
      ∃ r', GatewayService.delete_product ⟨[], 1⟩ demoStore "A" = (r', .ok "A") ∧
        StorageWrapper.get r' "A" = .error (.notFound "Product ID A does not exist")) :=
  ⟨⟨rfl, (spec_c7_delete_gate c7_backend demoStore "A").1 _ rfl⟩,
   ⟨rfl, rfl, (spec_c7_delete_gate ⟨[], 1⟩ demoStore "Z").2.1 rfl rfl⟩,
   ⟨rfl, (spec_c7_delete_gate ⟨[], 1⟩ demoStore "A").2.2 rfl (toHash prodA) rfl⟩⟩

/-- C10: fetching an order with no line items still performs the product
batch fetch with the empty id collection — which, by the store's list
semantics, yields every stored product — and then returns the order
unchanged, with no product or image attached anywhere. -/
theorem spec_c10_empty_order_enrichment :
    ∀ (r : Redis) (image_root : String) (order : Order),
      validStore r = true → order.order_details = [] →
      GatewayService.extract_product_ids_from_order order.order_details = [] ∧
      (∃ ps, StorageWrapper.list r [] = some ps ∧
        List.Forall₂ (fun (kv : String × Doc) p => fromHash kv.2 = some p) r.data ps) ∧
      GatewayService.get_order r image_root order =
        some ⟨order.id, []⟩ := by
  intro r image_root order hv hempty
  have hids : GatewayService.extract_product_ids_from_order order.order_details = [] := by
    rw [hempty]; rfl
  obtain ⟨ps, hps, hfa⟩ := list_some_of_valid hv []
  rw [listDocs_nil_of_valid hv] at hfa
  refine ⟨hids, ⟨ps, hps, ?_⟩, ?_⟩
  · exact List.forall₂_map_left_iff.mp hfa
  · simp only [GatewayService.get_order]
    rw [hids, hps]
    simp only [Option.some_bind]
    simp only [GatewayService.fill_order_details_with_product]
    rw [hempty]
    rfl

theorem spec_c10_empty_order_enrichment_witness :
    (validStore demoStore = true ∧ c10_order.order_details = []) ∧
    (GatewayService.extract_product_ids_from_order c10_order.order_details = [] ∧
      (∃ ps, StorageWrapper.list demoStore [] = some ps ∧
        List.Forall₂ (fun (kv : String × Doc) p => fromHash kv.2 = some p)
          demoStore.data ps) ∧
      GatewayService.get_order demoStore "http://img" c10_order =
        some ⟨c10_order.id, []⟩) :=
  ⟨⟨by decide, rfl⟩,
    spec_c10_empty_order_enrichment demoStore "http://img" c10_order (by decide) rfl⟩

/-- C2: for a single fetched order, and for every order of a fetched page,
whose lines all reference stored products, enrichment succeeds and attaches
to every line the full stored product document and the image URL
`image_root/product_id.jpg`; page metadata passes through unchanged. -/
theorem spec_c2_enrichment_completeness :
    (∀ (r : Redis) (image_root : String) (order : Order), validStore r = true →
      (∀ dt ∈ order.order_details, (storedProduct r dt.product_id).isSome) →
      ∃ eo, GatewayService.get_order r image_root order = some eo ∧ eo.id = order.id ∧
        List.Forall₂
          (fun dt (e : EnrichedDetail) => e.detail = dt ∧
            storedProduct r dt.product_id = some e.product ∧
            e.image = GatewayService.format_image image_root dt.product_id)
          order.order_details eo.order_details) ∧
    (∀ (r : Redis) (image_root : String) (result : PageResult), validStore r = true →
      (∀ o ∈ result.items, ∀ dt ∈ o.order_details,
        (storedProduct r dt.product_id).isSome) →
      ∃ ep, GatewayService.list_orders_enrich r image_root result = some ep ∧
        ep.page = result.page ∧ ep.page_size = result.page_size ∧
        ep.total = result.total ∧
        List.Forall₂
          (fun (o : Order) (eo : EnrichedOrder) => eo.id = o.id ∧
            List.Forall₂
              (fun dt (e : EnrichedDetail) => e.detail = dt ∧
                storedProduct r dt.product_id = some e.product ∧
                e.image = GatewayService.format_image image_root dt.product_id)
              o.order_details eo.order_details)
          result.items ep.items) :=
  ⟨fun _ _ _ hv hall => get_order_enriched hv hall,
   fun _ _ _ hv hall => list_orders_enriched hv hall⟩

theorem spec_c2_enrichment_completeness_witness :
    (validStore demoStore = true ∧
      ∀ dt ∈ c2_order.order_details,
        (storedProduct demoStore dt.product_id).isSome) ∧
    (∃ eo, GatewayService.get_order demoStore "http://img" c2_order = some eo ∧
      eo.id = c2_order.id ∧
      List.Forall₂
        (fun dt (e : EnrichedDetail) => e.detail = dt ∧
          storedProduct demoStore dt.product_id = some e.product ∧
          e.image = GatewayService.format_image "http://img" dt.product_id)
        c2_order.order_details eo.order_details) :=
  ⟨⟨by decide, by decide⟩,
    spec_c2_enrichment_completeness.1 demoStore "http://img" c2_order
      (by decide) (by decide)⟩

end Nameko
